import Mathlib

/-! Verification of the custom-kernel registration and invocation bridge
(paddle/fluid/framework/custom_kernel.cc).  The execution context, kernel
metadata and the bridge functions are embedded shallowly; tensors and boxed
attribute payloads are modelled by their values because the bridge copies
values across the plugin boundary rather than sharing storage. -/

namespace CustomKernel

/-- A tensor value held in one execution-context slot. -/
abbrev Tensor := Nat

/-- A boxed attribute payload (paddle::any). -/
abbrev AttrValue := Nat

/-- Runtime type identifier of an attribute, mirroring the fixed set of
std::type_index comparisons in RunKernelFunc; `other` stands for any type
identifier outside the enumerated set. -/
inductive AttrTypeIndex where
  | boolT
  | intT
  | floatT
  | doubleT
  | int64T
  | float16T
  | dataTypeT
  | scalarT
  | vecInt64T
  | scalarArrayT
  | vecIntT
  | other (id : Nat)
deriving DecidableEq

/-- Whether a type identifier is in the closed set handled by the attribute
branching chain of RunKernelFunc. -/
def AttrTypeIndex.isSupported : AttrTypeIndex → Bool
  | .other _ => false
  | _ => true

/-- One input or output definition of a kernel signature (backend, layout,
dtype, single-vs-list), as read through OpKernelInfoHelper::Get{In,Out}putDefs. -/
structure TensorArgDef where
  backend : Nat
  layout : Nat
  dtype : Nat
  is_vector : Bool
deriving DecidableEq

/-- One attribute definition of a kernel signature. -/
structure AttributeArgDef where
  type_index : AttrTypeIndex
deriving DecidableEq

/-- Kernel backend: the CPU backend or a custom backend identified by its
offset past phi::Backend::ALL_BACKEND. -/
inductive Backend where
  | cpu
  | custom (offset : Nat)
deriving DecidableEq

/-- Kernel key (backend, layout, dtype discriminators). -/
structure KernelKey where
  backend : Backend
  layout : Nat
  dtype : Nat
deriving DecidableEq

/-- The temporary simple DeviceContext handed to the plugin function; only the
stream is ever set on it. -/
structure DeviceContext where
  stream : Option Nat := none
deriving DecidableEq

/-- phi::KernelContext: flat slot arrays for inputs and outputs, the range
tables mapping a logical parameter index to a half-open slot range, the
attribute slots, and the stream of the accelerator sub-context.  An input slot
holds `none` after its tensor has been moved out. -/
structure KernelContext where
  inputs : List (Option Tensor)
  input_range : List (Nat × Nat)
  outputs : List Tensor
  output_range : List (Nat × Nat)
  attrs : List AttrValue
  stream : Nat := 0
deriving DecidableEq

/-- The type-erased kernel metadata (paddle::OpKernelInfo).  `userFn` is the
plugin user function: it receives the device context, the marshaled single
inputs, list inputs and boxed attributes, and the seeded output storages, and
returns the final values of the scalar output storages and of the list output
storages. -/
structure OpKernelInfo where
  op_name : String
  kernel_key : KernelKey
  backend : Backend
  input_defs : List TensorArgDef
  output_defs : List TensorArgDef
  attribute_defs : List AttributeArgDef
  userFn : DeviceContext → List Tensor → List (List Tensor) → List AttrValue →
      List Tensor → List (List Tensor) → List Tensor × List (List Tensor)

/-- Process-wide environment: whether PADDLE_WITH_CUSTOM_DEVICE is compiled in,
and the global device-type table indexed by backend offset. -/
structure Env where
  withCustomDevice : Bool
  globalDeviceTypes : List String

/-- phi::GetGlobalDeviceType: the device-type string registered at the given
offset, or the empty string when the offset is unknown. -/
def GetGlobalDeviceType (env : Env) (device_type_id : Nat) : String :=
  env.globalDeviceTypes.getD device_type_id ("")

/-- Error classes raised by the bridge. -/
inductive KernelErr where
  | invalidArgument
  | unimplemented
deriving DecidableEq

/-- ctx->InputAt(idx): reads the tensor at one input slot (a moved-out slot
reads as the empty tensor). -/
def InputAt (ctx : KernelContext) (idx : Nat) : Tensor :=
  (ctx.inputs.getD idx none).getD 0

/-- Marks `count` input slots starting at `first` as moved-out. -/
def clearSlots : List (Option Tensor) → Nat → Nat → List (Option Tensor)
  | inputs, _, 0 => inputs
  | inputs, first, k+1 => (clearSlots inputs first k).set (first + k) none

/-- ctx->MoveInputsBetween(first, second): returns the tensors of the slot
range and leaves those context slots moved-out. -/
def MoveInputsBetween (ctx : KernelContext) (first second : Nat) :
    List Tensor × KernelContext :=
  ((List.range (second - first)).map (fun k => InputAt ctx (first + k)),
   { ctx with inputs := clearSlots ctx.inputs first (second - first) })

/-- Inputs mapping loop of RunKernelFunc: walks the input defs in order,
copying a single tensor per non-list def and moving the whole slot range out of
the context per list def.  Returns (custom_ins, custom_vec_ins, mutated ctx). -/
def marshalInputs : List TensorArgDef → Nat → KernelContext →
    List Tensor × List (List Tensor) × KernelContext
  | [], _, ctx => ([], [], ctx)
  | d :: rest, in_idx, ctx =>
    let range := ctx.input_range.getD in_idx (0, 0)
    if d.is_vector then
      let moved := MoveInputsBetween ctx range.1 range.2
      let tail := marshalInputs rest (in_idx + 1) moved.2
      (tail.1, moved.1 :: tail.2.1, tail.2.2)
    else
      let t := InputAt ctx range.1
      let tail := marshalInputs rest (in_idx + 1) ctx
      (t :: tail.1, tail.2.1, tail.2.2)

/-- Attributes mapping loop of RunKernelFunc: branches on each attribute def's
type identifier; every identifier of the closed supported set boxes the
context's attribute value, any other identifier raises Unimplemented. -/
def marshalAttrs : List AttributeArgDef → Nat → KernelContext →
    Except KernelErr (List AttrValue)
  | [], _, _ => .ok []
  | d :: rest, attr_idx, ctx =>
    match d.type_index with
    | .other _ => .error .unimplemented
    | _ =>
      match marshalAttrs rest (attr_idx + 1) ctx with
      | .error e => .error e
      | .ok vs => .ok (ctx.attrs.getD attr_idx 0 :: vs)

/-- Outputs mapping loop of RunKernelFunc: walks the output defs in order and
seeds, per def, fresh backing storage initialized from the current context
output slot contents.  Returns (custom_outs_ptr, custom_vec_outs_ptr) in
declaration order. -/
def seedOutputs : List TensorArgDef → Nat → KernelContext →
    List Tensor × List (List Tensor)
  | [], _, _ => ([], [])
  | d :: rest, out_idx, ctx =>
    let range := ctx.output_range.getD out_idx (0, 0)
    let tail := seedOutputs rest (out_idx + 1) ctx
    if d.is_vector then
      (tail.1, ((List.range (range.2 - range.1)).map
        (fun k => ctx.outputs.getD (range.1 + k) 0)) :: tail.2)
    else
      (ctx.outputs.getD range.1 0 :: tail.1, tail.2)

/-- Inner write-back loop for one list-valued output: walks the slot indices
first+size-1 down to first, writing the back of the retained storage list and
popping it at each step. -/
def setRangeRev : List Tensor → Nat → Nat → List Tensor → List Tensor
  | outs, _, 0, _ => outs
  | outs, first, k+1, vec =>
    setRangeRev (outs.set (first + k) (vec.getLastD 0)) first k vec.dropLast

/-- Outer write-back loop of RunKernelFunc, already given the (def, range)
pairs in reverse declaration order: per scalar output it writes the back of the
scalar storage stack into the slot and pops; per list output it consumes the
back of the list storage stack.  Returns the final slots and remaining stacks
(the loop state). -/
def writeBackAux : List (TensorArgDef × Nat × Nat) → List Tensor → List Tensor →
    List (List Tensor) → List Tensor × List Tensor × List (List Tensor)
  | [], outs, ss, vs => (outs, ss, vs)
  | x :: rest, outs, ss, vs =>
    if x.1.is_vector then
      writeBackAux rest (setRangeRev outs x.2.1 (x.2.2 - x.2.1) (vs.getLastD []))
        ss vs.dropLast
    else
      writeBackAux rest (outs.set x.2.1 (ss.getLastD 0)) ss.dropLast vs

/-- The output ranges as read by ctx->OutputRangeAt for each output def index. -/
def outputRanges (info : OpKernelInfo) (ctx : KernelContext) : List (Nat × Nat) :=
  (List.range info.output_defs.length).map (fun i => ctx.output_range.getD i (0, 0))

/-- RunKernelFunc: the per-call invocation bridge.  Checks the three size
invariants, marshals inputs and attributes, seeds output storage, selects the
device context by backend, invokes the plugin user function (CPU backend only:
the custom-device branch returns right after setting the stream, and an
unresolvable backend is logged and skipped), and maps the outputs back in
reverse declaration order.  Errors carry the context state at the throw. -/
def RunKernelFunc (env : Env) (info : OpKernelInfo) (ctx : KernelContext) :
    Except (KernelErr × KernelContext) KernelContext :=
  if info.input_defs.length ≤ ctx.inputs.length then
    if info.output_defs.length ≤ ctx.outputs.length then
      if ctx.attrs.length = info.attribute_defs.length then
        let ins := marshalInputs info.input_defs 0 ctx
        let ctx1 := ins.2.2
        match marshalAttrs info.attribute_defs 0 ctx1 with
        | .error e => .error (e, ctx1)
        | .ok custom_attrs =>
          let seeds := seedOutputs info.output_defs 0 ctx1
          match info.backend with
          | .cpu =>
            let dev_ctx : DeviceContext := {}
            let res := info.userFn dev_ctx ins.1 ins.2.1 custom_attrs seeds.1 seeds.2
            .ok { ctx1 with outputs :=
              (writeBackAux ((info.output_defs.zip (outputRanges info ctx1)).reverse)
                ctx1.outputs res.1 res.2).1 }
          | .custom offset =>
            if env.withCustomDevice ∧ GetGlobalDeviceType env offset ≠ ("") then
              -- dev_ctx.set_stream(custom_ctx.stream()); return;  (early return:
              -- the user function below is never reached on this path)
              .ok ctx1
            else
              -- LOG(ERROR) << unsupported kernel backend; return;
              .ok ctx1
      else .error (.invalidArgument, ctx)
    else .error (.invalidArgument, ctx)
  else .error (.invalidArgument, ctx)

/-- Element type tag recorded by ParseArgs for a tensor argument. -/
inductive TensorTypeTag where
  | singleTensor
  | tensorList
deriving DecidableEq

/-- One entry of the dispatch table's argument-definition record. -/
structure ArgDefEntry where
  backend : Nat
  layout : Nat
  dtype : Nat
  type_tag : TensorTypeTag
deriving DecidableEq

/-- phi::KernelArgsDef. -/
structure KernelArgsDef where
  input_defs : List ArgDefEntry := []
  output_defs : List ArgDefEntry := []
  attribute_defs : List AttrTypeIndex := []
deriving DecidableEq

/-- args_def->AppendInput. -/
def KernelArgsDef.AppendInput (a : KernelArgsDef) (backend layout dtype : Nat)
    (t : TensorTypeTag) : KernelArgsDef :=
  { a with input_defs := a.input_defs ++ [⟨backend, layout, dtype, t⟩] }

/-- args_def->AppendOutput. -/
def KernelArgsDef.AppendOutput (a : KernelArgsDef) (backend layout dtype : Nat)
    (t : TensorTypeTag) : KernelArgsDef :=
  { a with output_defs := a.output_defs ++ [⟨backend, layout, dtype, t⟩] }

/-- args_def->AppendAttribute. -/
def KernelArgsDef.AppendAttribute (a : KernelArgsDef) (t : AttrTypeIndex) :
    KernelArgsDef :=
  { a with attribute_defs := a.attribute_defs ++ [t] }

/-- ParseArgs: sets the phi::Kernel args_def from the op kernel info by
appending one entry per input def, per output def, and per attribute def, in
order. -/
def ParseArgs (info : OpKernelInfo) : KernelArgsDef :=
  let a1 := info.input_defs.foldl (fun acc input =>
    acc.AppendInput input.backend input.layout input.dtype
      (if input.is_vector then .tensorList else .singleTensor)) {}
  let a2 := info.output_defs.foldl (fun acc output =>
    acc.AppendOutput output.backend output.layout output.dtype
      (if output.is_vector then .tensorList else .singleTensor)) a1
  info.attribute_defs.foldl (fun acc attr => acc.AppendAttribute attr.type_index) a2

/-- A registered kernel: the closure's captured kernel info together with the
argument-definition record populated by ParseArgs. -/
structure PhiKernel where
  info : OpKernelInfo
  args_def : KernelArgsDef

/-- Association-list lookup (map.find). -/
def lookupA {α β : Type} [DecidableEq α] : List (α × β) → α → Option β
  | [], _ => none
  | (a, b) :: rest, a' => if a = a' then some b else lookupA rest a'

/-- Association-list update (map[k] = v). -/
def setA {α β : Type} [DecidableEq α] : List (α × β) → α → β → List (α × β)
  | [], a, b => [(a, b)]
  | (a0, b0) :: rest, a, b =>
    if a0 = a then (a, b) :: rest else (a0, b0) :: setA rest a b

/-- The kernel dispatch table (phi::KernelFactory): per op name, a map from
kernel key to kernel, plus the set of op names that already have a compatible
kernel family. -/
structure KernelRegistry where
  compatibleOps : List String
  kernels : List (String × List (KernelKey × PhiKernel))

/-- Modelled from the spec: phi::KernelFactory::Instance().HasCompatiblePtenKernel
is external collaborator code not present under the verified source; per the
spec it verifies that the dispatch table already has at least one compatible
kernel family registered for this op name. -/
def HasCompatiblePtenKernel (reg : KernelRegistry) (op_type : String) : Bool :=
  reg.compatibleOps.contains op_type

/-- kernels()[op_type].find(kernel_key). -/
def lookupKernel (reg : KernelRegistry) (op_type : String) (key : KernelKey) :
    Option PhiKernel :=
  match lookupA reg.kernels op_type with
  | none => none
  | some m => lookupA m key

/-- kernels()[op_type][kernel_key] = kernel. -/
def insertKernel (reg : KernelRegistry) (op_type : String) (key : KernelKey)
    (k : PhiKernel) : KernelRegistry :=
  let bucket := (lookupA reg.kernels op_type).getD []
  { reg with kernels := setA reg.kernels op_type (setA bucket key k) }

/-- One iteration of the RegisterKernelWithMetaInfo loop: validates that the op
already has a compatible kernel family and that the kernel key is not yet
registered, then installs the kernel (closure plus ParseArgs record). -/
def RegisterKernelWithMetaInfoStep (reg : KernelRegistry) (info : OpKernelInfo) :
    Except KernelErr KernelRegistry :=
  if HasCompatiblePtenKernel reg info.op_name = true then
    if (lookupKernel reg info.op_name info.kernel_key).isSome then
      .error .invalidArgument
    else
      .ok (insertKernel reg info.op_name info.kernel_key
        { info := info, args_def := ParseArgs info })
  else .error .invalidArgument

/-- RegisterKernelWithMetaInfo: registers a list of kernel infos in order; a
failing validation throws, leaving the registry in the state reached so far
(carried on the error). -/
def RegisterKernelWithMetaInfo : List OpKernelInfo → KernelRegistry →
    Except (KernelErr × KernelRegistry) KernelRegistry
  | [], reg => .ok reg
  | info :: rest, reg =>
    match RegisterKernelWithMetaInfoStep reg info with
    | .error e => .error (e, reg)
    | .ok reg' => RegisterKernelWithMetaInfo rest reg'

/-- RegisterKernelWithMetaInfoMap: registers every (op name, kernel info list)
group in order. -/
def RegisterKernelWithMetaInfoMap :
    List (String × List OpKernelInfo) → KernelRegistry →
    Except (KernelErr × KernelRegistry) KernelRegistry
  | [], reg => .ok reg
  | pair :: rest, reg =>
    match RegisterKernelWithMetaInfo pair.2 reg with
    | .error er => .error er
    | .ok reg' => RegisterKernelWithMetaInfoMap rest reg'

/-- LoadCustomKernelLib: resolves the PD_GetOpKernelInfoMap symbol from the
loaded library; if it is absent the library is skipped with a warning,
otherwise the returned map is registered. -/
def LoadCustomKernelLib (sym : Option (List (String × List OpKernelInfo)))
    (reg : KernelRegistry) : Except (KernelErr × KernelRegistry) KernelRegistry :=
  match sym with
  | none => .ok reg
  | some m => RegisterKernelWithMetaInfoMap m reg

/-! Derived definitions used to state the verified properties: projections of
the bridge's intermediate values, counting and disjointness helpers over the
output (def, range) pairs, and the spec's hypothetical forward-order
write-back. -/

/-- Number of non-list output defs (the length of the scalar storage stack). -/
def countScalar : List TensorArgDef → Nat
  | [] => 0
  | d :: rest => (if d.is_vector then 0 else 1) + countScalar rest

/-- Number of list-valued output defs (the length of the list storage stack). -/
def countVec : List TensorArgDef → Nat
  | [] => 0
  | d :: rest => (if d.is_vector then 1 else 0) + countVec rest

/-- countScalar over zipped (def, range) pairs. -/
def countScalarZ : List (TensorArgDef × Nat × Nat) → Nat
  | [] => 0
  | x :: rest => (if x.1.is_vector then 0 else 1) + countScalarZ rest

/-- countVec over zipped (def, range) pairs. -/
def countVecZ : List (TensorArgDef × Nat × Nat) → Nat
  | [] => 0
  | x :: rest => (if x.1.is_vector then 1 else 0) + countVecZ rest

/-- First slot of an output (def, range) pair. -/
def outLo (x : TensorArgDef × Nat × Nat) : Nat := x.2.1

/-- Number of context slots an output (def, range) pair occupies. -/
def outSize (x : TensorArgDef × Nat × Nat) : Nat :=
  if x.1.is_vector then x.2.2 - x.2.1 else 1

/-- Whether the half-open slot intervals [f, f+k) and [g, g+m) are disjoint. -/
def intervalDisjoint (f k g m : Nat) : Bool :=
  decide (f + k ≤ g) || decide (g + m ≤ f)

/-- Whether two output (def, range) pairs occupy disjoint slot intervals. -/
def outDisjoint (x y : TensorArgDef × Nat × Nat) : Bool :=
  intervalDisjoint (outLo x) (outSize x) (outLo y) (outSize y)

/-- Pairwise slot-disjointness of a list of output (def, range) pairs: no two
outputs alias shared storage. -/
def disjointAll : List (TensorArgDef × Nat × Nat) → Bool
  | [] => true
  | x :: rest => rest.all (fun y => outDisjoint x y) && disjointAll rest

/-- Whether every output (def, range) pair's slot interval lies inside the
first `len` slots. -/
def rangesInBounds (L : List (TensorArgDef × Nat × Nat)) (len : Nat) : Bool :=
  L.all (fun x => decide (outLo x + outSize x ≤ len))

/-- Whether a list of list-output storage values has one entry per list-valued
output pair, of exactly the pair's slot-range length (the shape the bridge's
storage necessarily has, since the plugin mutates storage in place). -/
def vecShapesOk : List (TensorArgDef × Nat × Nat) → List (List Tensor) → Bool
  | [], vs => vs.isEmpty
  | x :: rest, vs =>
    if x.1.is_vector then
      !vs.isEmpty && decide ((vs.headD []).length = x.2.2 - x.2.1) &&
        vecShapesOk rest vs.tail
    else vecShapesOk rest vs

/-- The output (def, range) pairs of a call. -/
def outItems (info : OpKernelInfo) (ctx : KernelContext) :
    List (TensorArgDef × Nat × Nat) :=
  info.output_defs.zip (outputRanges info ctx)

/-- The single-input handles marshaled by the bridge. -/
def bridgeIns (info : OpKernelInfo) (ctx : KernelContext) : List Tensor :=
  (marshalInputs info.input_defs 0 ctx).1

/-- The list-input handle sequences marshaled by the bridge. -/
def bridgeVecIns (info : OpKernelInfo) (ctx : KernelContext) : List (List Tensor) :=
  (marshalInputs info.input_defs 0 ctx).2.1

/-- The context state after input marshaling. -/
def bridgeCtx1 (info : OpKernelInfo) (ctx : KernelContext) : KernelContext :=
  (marshalInputs info.input_defs 0 ctx).2.2

/-- The boxed attribute values the bridge passes to the plugin (one per
attribute def, read from the context attribute slots in order). -/
def bridgeAttrs (info : OpKernelInfo) (ctx : KernelContext) : List AttrValue :=
  (List.range info.attribute_defs.length).map (fun j => ctx.attrs.getD j 0)

/-- The seeded output storages of a call. -/
def bridgeSeeds (info : OpKernelInfo) (ctx : KernelContext) :
    List Tensor × List (List Tensor) :=
  seedOutputs info.output_defs 0 (bridgeCtx1 info ctx)

/-- What the plugin function writes into the output storages during the call:
the user function applied to the device context, marshaled inputs, boxed
attributes and seeded output storages. -/
def bridgeResult (info : OpKernelInfo) (ctx : KernelContext) :
    List Tensor × List (List Tensor) :=
  info.userFn {} (bridgeIns info ctx) (bridgeVecIns info ctx)
    (bridgeAttrs info ctx) (bridgeSeeds info ctx).1 (bridgeSeeds info ctx).2

/-- Writes the values of `vec` into consecutive slots starting at `first`, in
forward order. -/
def setRangeFwd : List Tensor → Nat → List Tensor → List Tensor
  | outs, _, [] => outs
  | outs, first, v :: rest => setRangeFwd (outs.set first v) (first + 1) rest

/-- Modelled from the spec: the hypothetical FORWARD-order write-back the
reversed write-back is compared against — walk the outputs in declaration
order, consuming each storage stack from the front, and write each list
output's component slots in forward order. -/
def writeBackFwdSpec : List (TensorArgDef × Nat × Nat) → List Tensor →
    List Tensor → List (List Tensor) → List Tensor
  | [], outs, _, _ => outs
  | x :: rest, outs, ss, vs =>
    if x.1.is_vector then
      writeBackFwdSpec rest (setRangeFwd outs x.2.1 (vs.headD [])) ss vs.tail
    else
      writeBackFwdSpec rest (outs.set x.2.1 (ss.headD 0)) ss.tail vs

/-- Structural reformulation of the source's reverse-order write-back used in
the proofs: the head output's write is applied last (outermost), matching the
fact that the reversed loop reaches declaration position 0 at its final
iteration. -/
def writeBackRevSpec : List (TensorArgDef × Nat × Nat) → List Tensor →
    List Tensor → List (List Tensor) → List Tensor
  | [], outs, _, _ => outs
  | x :: rest, outs, ss, vs =>
    if x.1.is_vector then
      setRangeRev (writeBackRevSpec rest outs ss vs.tail) x.2.1 (x.2.2 - x.2.1)
        (vs.headD [])
    else
      (writeBackRevSpec rest outs ss.tail vs).set x.2.1 (ss.headD 0)

/-! Concrete instances used by the witnesses and the concrete evaluations. -/

/-- Environment without custom-device support. -/
def wEnv : Env := { withCustomDevice := false, globalDeviceTypes := [] }

/-- Environment with custom-device support and one registered device type. -/
def wEnvCD : Env := { withCustomDevice := true, globalDeviceTypes := ["FakeNPU"] }

/-- A CPU kernel signature: one scalar input, one list input, one int
attribute, one scalar output, one list output; the plugin adds 100 to the
scalar output storage and 200 to every list output storage element. -/
def wInfo : OpKernelInfo :=
  { op_name := "custom_add"
    kernel_key := { backend := Backend.cpu, layout := 0, dtype := 0 }
    backend := Backend.cpu
    input_defs := [{ backend := 0, layout := 0, dtype := 0, is_vector := false },
                   { backend := 0, layout := 0, dtype := 0, is_vector := true }]
    output_defs := [{ backend := 0, layout := 0, dtype := 0, is_vector := false },
                    { backend := 0, layout := 0, dtype := 0, is_vector := true }]
    attribute_defs := [{ type_index := AttrTypeIndex.intT }]
    userFn := fun _ _ _ _ ss vs =>
      (ss.map (fun t => t + 100), vs.map (fun v => v.map (fun t => t + 200))) }

/-- A context matching wInfo: three input slots (one scalar, a list of two),
three output slots (one scalar, a list of two), one attribute. -/
def wCtx : KernelContext :=
  { inputs := [some 1, some 2, some 3]
    input_range := [(0, 1), (1, 3)]
    outputs := [10, 20, 30]
    output_range := [(0, 1), (1, 3)]
    attrs := [7] }

/-- wInfo with an attribute def whose type identifier is outside the
enumerated set. -/
def wInfoBadAttr : OpKernelInfo :=
  { wInfo with attribute_defs := [{ type_index := AttrTypeIndex.other 3 }] }

/-- wInfo on an unresolvable accelerator backend (offset 7 has no entry in the
device-type table). -/
def wInfoNpuBad : OpKernelInfo := { wInfo with backend := Backend.custom 7 }

/-- A custom-device kernel signature whose plugin doubles its single input
into its single output. -/
def wInfoNpu : OpKernelInfo :=
  { op_name := "custom_relu"
    kernel_key := { backend := Backend.custom 0, layout := 0, dtype := 0 }
    backend := Backend.custom 0
    input_defs := [{ backend := 1, layout := 0, dtype := 0, is_vector := false }]
    output_defs := [{ backend := 1, layout := 0, dtype := 0, is_vector := false }]
    attribute_defs := []
    userFn := fun _ ins _ _ _ _ => (ins.map (fun t => t * 2), []) }

/-- A context matching wInfoNpu: one input slot holding 21, one output slot
holding 7. -/
def wCtxNpu : KernelContext :=
  { inputs := [some 21]
    input_range := [(0, 1)]
    outputs := [7]
    output_range := [(0, 1)]
    attrs := [] }

/-- A dispatch table in which the op of wInfo already has a compatible kernel
family but no kernel registered yet. -/
def wReg : KernelRegistry :=
  { compatibleOps := ["custom_add"], kernels := [] }

/-- A second kernel info for the same op as wInfo but a different kernel key. -/
def wInfoOtherKey : OpKernelInfo :=
  { wInfo with kernel_key := { backend := Backend.cpu, layout := 1, dtype := 3 } }

/-- A kernel info whose op has no compatible kernel family in wReg. -/
def wInfoUnknownOp : OpKernelInfo := { wInfo with op_name := "unknown_op" }

/-! Basic list lemmas used throughout. -/

theorem getD_set_ne {α : Type} (l : List α) {i j : Nat} (h : i ≠ j) (a d : α) :
    (l.set i a).getD j d = l.getD j d := by
  simp [List.getD_eq_getElem?_getD, List.getElem?_set_ne h]

theorem getD_set_lt {α : Type} (l : List α) {i : Nat} (h : i < l.length) (a d : α) :
    (l.set i a).getD i d = a := by
  simp [List.getD_eq_getElem?_getD, List.getElem?_set_self h]

theorem getD_set_none {α : Type} (l : List (Option α)) (i : Nat) :
    (l.set i none).getD i none = none := by
  simp only [List.getD_eq_getElem?_getD, List.getElem?_set]
  split
  · split <;> simp
  · simp at *

theorem getD_zero_eq_headD {α : Type} (l : List α) (d : α) : l.getD 0 d = l.headD d := by
  cases l <;> rfl

theorem getD_succ_eq_tail {α : Type} (l : List α) (n : Nat) (d : α) :
    l.getD (n + 1) d = l.tail.getD n d := by
  cases l <;> rfl

theorem getLastD_append_ne_nil {α : Type} (l1 l2 : List α) (h : l2 ≠ []) (d : α) :
    (l1 ++ l2).getLastD d = l2.getLastD d := by
  rcases List.eq_nil_or_concat l2 with rfl | ⟨l3, b, rfl⟩
  · exact absurd rfl h
  · rw [List.concat_eq_append, ← List.append_assoc, List.getLastD_concat,
      List.getLastD_concat]

theorem dropLast_append_ne_nil {α : Type} (l1 l2 : List α) (h : l2 ≠ []) :
    (l1 ++ l2).dropLast = l1 ++ l2.dropLast := by
  rcases List.eq_nil_or_concat l2 with rfl | ⟨l3, b, rfl⟩
  · exact absurd rfl h
  · rw [List.concat_eq_append, ← List.append_assoc, List.dropLast_concat,
      List.dropLast_concat]

/-! Lemmas about the marshaling loops. -/

theorem clearSlots_length (l : List (Option Tensor)) (f k : Nat) :
    (clearSlots l f k).length = l.length := by
  induction k with
  | zero => rfl
  | succ k ih => simp [clearSlots, List.length_set, ih]

theorem clearSlots_getD_inside (l : List (Option Tensor)) (f k j : Nat)
    (h1 : f ≤ j) (h2 : j < f + k) : (clearSlots l f k).getD j none = none := by
  induction k with
  | zero => omega
  | succ k ih =>
    by_cases hj : j = f + k
    · subst hj; exact getD_set_none _ _
    · rw [clearSlots, getD_set_ne _ (by omega)]
      exact ih (by omega)

theorem clearSlots_none_mono (l : List (Option Tensor)) (f k j : Nat)
    (h : l.getD j none = none) : (clearSlots l f k).getD j none = none := by
  induction k with
  | zero => exact h
  | succ k ih =>
    by_cases hj : j = f + k
    · subst hj; exact getD_set_none _ _
    · rw [clearSlots, getD_set_ne _ (by omega)]
      exact ih

/-- Input marshaling only mutates the context's input slots, preserving their
number. -/
theorem marshalInputs_ctx (defs : List TensorArgDef) (i : Nat) (ctx : KernelContext) :
    ∃ l, (marshalInputs defs i ctx).2.2 = { ctx with inputs := l } ∧
      l.length = ctx.inputs.length := by
  induction defs generalizing i ctx with
  | nil => exact ⟨ctx.inputs, rfl, rfl⟩
  | cons d rest ih =>
    by_cases hv : d.is_vector
    · obtain ⟨l, hl, hlen⟩ := ih (i + 1)
        (MoveInputsBetween ctx (ctx.input_range.getD i (0, 0)).1
          (ctx.input_range.getD i (0, 0)).2).2
      refine ⟨l, ?_, ?_⟩
      · rw [marshalInputs]
        rw [if_pos hv]
        rw [hl]
        simp [MoveInputsBetween]
      · rw [hlen]
        simp [MoveInputsBetween, clearSlots_length]
    · obtain ⟨l, hl, hlen⟩ := ih (i + 1) ctx
      refine ⟨l, ?_, hlen⟩
      rw [marshalInputs]
      rw [if_neg hv]
      exact hl

/-- Marshaling a supported-type attribute list succeeds and boxes the context's
attribute values in order. -/
theorem marshalAttrs_ok (defs : List AttributeArgDef) (i : Nat) (ctx : KernelContext)
    (h : ∀ d ∈ defs, d.type_index.isSupported = true) :
    marshalAttrs defs i ctx =
      .ok ((List.range defs.length).map (fun j => ctx.attrs.getD (i + j) 0)) := by
  induction defs generalizing i with
  | nil => rfl
  | cons d rest ih =>
    have hd : d.type_index.isSupported = true := h d (by simp)
    have hr : marshalAttrs rest (i + 1) ctx =
        .ok ((List.range rest.length).map (fun j => ctx.attrs.getD (i + 1 + j) 0)) :=
      ih (i + 1) (fun d hm => h d (by simp [hm]))
    have hstep : marshalAttrs (d :: rest) i ctx =
        match marshalAttrs rest (i + 1) ctx with
        | .error e => .error e
        | .ok vs => .ok (ctx.attrs.getD i 0 :: vs) := by
      cases htype : d.type_index <;> rw [marshalAttrs, htype]
      rw [htype] at hd
      simp [AttrTypeIndex.isSupported] at hd
    rw [hstep, hr]
    have : (List.range (rest.length + 1)).map (fun j => ctx.attrs.getD (i + j) 0) =
        ctx.attrs.getD i 0 ::
          (List.range rest.length).map (fun j => ctx.attrs.getD (i + 1 + j) 0) := by
      rw [List.range_succ_eq_map]
      simp only [List.map_cons, Nat.add_zero, List.map_map]
      congr 1
      apply List.map_congr_left
      intro j hj
      simp only [Function.comp]
      congr 1
      omega
    simp only [List.length_cons, this]

/-- Marshaling an attribute list containing an unsupported type identifier
raises Unimplemented. -/
theorem marshalAttrs_error (defs : List AttributeArgDef) (i : Nat) (ctx : KernelContext)
    (h : ∃ d ∈ defs, d.type_index.isSupported = false) :
    marshalAttrs defs i ctx = .error .unimplemented := by
  induction defs generalizing i with
  | nil => simp at h
  | cons d rest ih =>
    by_cases hd : d.type_index.isSupported = true
    · have hrest : ∃ e ∈ rest, e.type_index.isSupported = false := by
        obtain ⟨e, hm, he⟩ := h
        rcases List.mem_cons.mp hm with rfl | hm
        · rw [hd] at he; cases he
        · exact ⟨e, hm, he⟩
      have hstep : marshalAttrs (d :: rest) i ctx =
          match marshalAttrs rest (i + 1) ctx with
          | .error e => .error e
          | .ok vs => .ok (ctx.attrs.getD i 0 :: vs) := by
        cases htype : d.type_index <;> rw [marshalAttrs, htype]
        rw [htype] at hd
        simp [AttrTypeIndex.isSupported] at hd
      rw [hstep, ih (i + 1) hrest]
    · have htype : ∃ id, d.type_index = .other id := by
        cases htype : d.type_index <;> rw [htype] at hd <;>
          simp [AttrTypeIndex.isSupported] at hd
        exact ⟨_, rfl⟩
      obtain ⟨id, htype⟩ := htype
      rw [marshalAttrs, htype]

/-! C3: size-invariant violations. -/

/-- C3: if the context has fewer input slots than the signature's input defs,
or fewer output slots than its output defs, or an attribute count different
from its attribute defs, RunKernelFunc fails with an InvalidArgument error (the
context is untouched) and the plugin user function is never invoked — the
result is the same error for every plugin function. -/
theorem runKernelFunc_size_violation (env : Env) (info : OpKernelInfo)
    (ctx : KernelContext)
    (h : ctx.inputs.length < info.input_defs.length ∨
      ctx.outputs.length < info.output_defs.length ∨
      ctx.attrs.length ≠ info.attribute_defs.length) :
    ∀ fn, RunKernelFunc env { info with userFn := fn } ctx =
      .error (.invalidArgument, ctx) := by
  intro fn
  rw [RunKernelFunc]
  split_ifs with h1 h2 h3
  · exfalso
    simp only at h1 h2 h3
    omega
  · rfl
  · rfl
  · rfl

/-- Witness for C3: a context with no input slots against a signature with two
input defs fails with InvalidArgument for this concrete plugin function. -/
theorem runKernelFunc_size_violation_witness :
    ({ wCtx with inputs := [] } : KernelContext).inputs.length <
        wInfo.input_defs.length ∧
      RunKernelFunc wEnv { wInfo with userFn := wInfo.userFn }
          { wCtx with inputs := [] } =
        .error (.invalidArgument, { wCtx with inputs := [] }) :=
  ⟨by decide, runKernelFunc_size_violation wEnv wInfo { wCtx with inputs := [] }
    (Or.inl (by decide)) wInfo.userFn⟩

/-! C7: library without the export symbol. -/

/-- C7: loading a shared library in which the PD_GetOpKernelInfoMap symbol
cannot be resolved registers nothing, raises no error, and leaves the dispatch
table unchanged. -/
theorem loadCustomKernelLib_no_symbol (reg : KernelRegistry) :
    LoadCustomKernelLib none reg = .ok reg := rfl

/-! C8: the signature resolver is a total structural transform. -/

theorem foldl_appendInput (l : List TensorArgDef) (acc : KernelArgsDef) :
    l.foldl (fun acc input => acc.AppendInput input.backend input.layout input.dtype
        (if input.is_vector then .tensorList else .singleTensor)) acc =
      { acc with input_defs := acc.input_defs ++ l.map (fun d =>
          ⟨d.backend, d.layout, d.dtype,
            if d.is_vector then .tensorList else .singleTensor⟩) } := by
  induction l generalizing acc with
  | nil => simp
  | cons d rest ih =>
    rw [List.foldl_cons, ih]
    simp [KernelArgsDef.AppendInput]

theorem foldl_appendOutput (l : List TensorArgDef) (acc : KernelArgsDef) :
    l.foldl (fun acc output => acc.AppendOutput output.backend output.layout output.dtype
        (if output.is_vector then .tensorList else .singleTensor)) acc =
      { acc with output_defs := acc.output_defs ++ l.map (fun d =>
          ⟨d.backend, d.layout, d.dtype,
            if d.is_vector then .tensorList else .singleTensor⟩) } := by
  induction l generalizing acc with
  | nil => simp
  | cons d rest ih =>
    rw [List.foldl_cons, ih]
    simp [KernelArgsDef.AppendOutput]

theorem foldl_appendAttribute (l : List AttributeArgDef) (acc : KernelArgsDef) :
    l.foldl (fun acc attr => acc.AppendAttribute attr.type_index) acc =
      { acc with attribute_defs :=
          acc.attribute_defs ++ l.map (fun d => d.type_index) } := by
  induction l generalizing acc with
  | nil => simp
  | cons d rest ih =>
    rw [List.foldl_cons, ih]
    simp [KernelArgsDef.AppendAttribute]

/-- C8: ParseArgs is total (it is a function) and yields exactly one argument
record entry per input def, then per output def, each tagged single-tensor or
tensor-list by is_vector and carrying backend/layout/dtype, followed by every
attribute def's type identifier unchanged, all in declaration order. -/
theorem parseArgs_spec (info : OpKernelInfo) :
    ParseArgs info =
      { input_defs := info.input_defs.map (fun d =>
          ⟨d.backend, d.layout, d.dtype,
            if d.is_vector then .tensorList else .singleTensor⟩)
        output_defs := info.output_defs.map (fun d =>
          ⟨d.backend, d.layout, d.dtype,
            if d.is_vector then .tensorList else .singleTensor⟩)
        attribute_defs := info.attribute_defs.map (fun d => d.type_index) } := by
  rw [ParseArgs]
  rw [foldl_appendInput, foldl_appendOutput, foldl_appendAttribute]
  simp

/-! C4: unsupported attribute types. -/

/-- Input marshaling never un-consumes a slot: a moved-out slot stays
moved-out. -/
theorem marshalInputs_none_mono (defs : List TensorArgDef) (i : Nat)
    (ctx : KernelContext) (k : Nat) (h : ctx.inputs.getD k none = none) :
    (marshalInputs defs i ctx).2.2.inputs.getD k none = none := by
  induction defs generalizing i ctx with
  | nil => exact h
  | cons d rest ih =>
    by_cases hv : d.is_vector
    · rw [marshalInputs]
      rw [if_pos hv]
      exact ih (i + 1) _ (clearSlots_none_mono _ _ _ _ h)
    · rw [marshalInputs]
      rw [if_neg hv]
      exact ih (i + 1) _ h

/-- After input marshaling, every slot of every list-valued input def's range
is moved-out. -/
theorem marshalInputs_consumed (defs : List TensorArgDef) (i : Nat)
    (ctx : KernelContext) :
    ∀ j, (hj : j < defs.length) → (defs.get ⟨j, hj⟩).is_vector = true →
    ∀ k, (ctx.input_range.getD (i + j) (0, 0)).1 ≤ k →
      k < (ctx.input_range.getD (i + j) (0, 0)).2 →
      (marshalInputs defs i ctx).2.2.inputs.getD k none = none := by
  induction defs generalizing i ctx with
  | nil => intro j hj; simp at hj
  | cons d rest ih =>
    intro j hj hjv k hk1 hk2
    cases j with
    | zero =>
      simp only [List.get] at hjv
      rw [Nat.add_zero] at hk1 hk2
      rw [marshalInputs]
      rw [if_pos hjv]
      refine marshalInputs_none_mono _ _ _ _ ?_
      exact clearSlots_getD_inside _ _ _ _ hk1 (by omega)
    | succ j =>
      simp only [List.get] at hjv
      have hidx : i + (j + 1) = (i + 1) + j := by omega
      rw [hidx] at hk1 hk2
      by_cases hv : d.is_vector
      · rw [marshalInputs]
        rw [if_pos hv]
        exact ih (i + 1) _ j (by simpa using hj) hjv k hk1 hk2
      · rw [marshalInputs]
        rw [if_neg hv]
        exact ih (i + 1) _ j (by simpa using hj) hjv k hk1 hk2

/-- C4: when the signature contains an attribute def whose type identifier is
outside the enumerated set (and the size checks pass), RunKernelFunc fails with
an Unimplemented error whatever the plugin function is (so the plugin is never
invoked), and no context output slot has been mutated. -/
theorem runKernelFunc_unsupported_attr_type (env : Env) (info : OpKernelInfo)
    (ctx : KernelContext)
    (h1 : info.input_defs.length ≤ ctx.inputs.length)
    (h2 : info.output_defs.length ≤ ctx.outputs.length)
    (h3 : ctx.attrs.length = info.attribute_defs.length)
    (h4 : ∃ d ∈ info.attribute_defs, d.type_index.isSupported = false) :
    ∀ fn, RunKernelFunc env { info with userFn := fn } ctx =
        .error (.unimplemented, bridgeCtx1 info ctx) ∧
      (bridgeCtx1 info ctx).outputs = ctx.outputs := by
  intro fn
  obtain ⟨l, hl, _⟩ := marshalInputs_ctx info.input_defs 0 ctx
  constructor
  · rw [RunKernelFunc]
    rw [if_pos h1, if_pos h2, if_pos h3]
    dsimp only
    rw [marshalAttrs_error info.attribute_defs 0
      (marshalInputs info.input_defs 0 ctx).2.2 h4]
    rfl
  · rw [bridgeCtx1, hl]

/-- Witness for C4: the bad-attribute signature fails with Unimplemented on the
concrete context, leaving the outputs untouched. -/
theorem runKernelFunc_unsupported_attr_type_witness :
    wInfoBadAttr.input_defs.length ≤ wCtx.inputs.length ∧
      (∃ d ∈ wInfoBadAttr.attribute_defs, d.type_index.isSupported = false) ∧
      (RunKernelFunc wEnv { wInfoBadAttr with userFn := wInfoBadAttr.userFn } wCtx =
          .error (.unimplemented, bridgeCtx1 wInfoBadAttr wCtx) ∧
        (bridgeCtx1 wInfoBadAttr wCtx).outputs = wCtx.outputs) :=
  ⟨by decide, by decide,
    runKernelFunc_unsupported_attr_type wEnv wInfoBadAttr wCtx (by decide) (by decide)
      (by decide) (by decide) wInfoBadAttr.userFn⟩

/-! C9: the Unimplemented path is not atomic — list inputs are already
consumed. -/

/-- C9: when an unsupported attribute type identifier aborts the call, the
input marshaling that already ran has moved every list-valued input's slot
range out of the context: in the context state carried by the error, all those
slots are consumed. -/
theorem runKernelFunc_attr_error_consumed_inputs (env : Env) (info : OpKernelInfo)
    (ctx : KernelContext)
    (h1 : info.input_defs.length ≤ ctx.inputs.length)
    (h2 : info.output_defs.length ≤ ctx.outputs.length)
    (h3 : ctx.attrs.length = info.attribute_defs.length)
    (h4 : ∃ d ∈ info.attribute_defs, d.type_index.isSupported = false) :
    ∃ ctx', RunKernelFunc env info ctx = .error (.unimplemented, ctx') ∧
      ∀ j, (hj : j < info.input_defs.length) →
        (info.input_defs.get ⟨j, hj⟩).is_vector = true →
        ∀ k, (ctx.input_range.getD j (0, 0)).1 ≤ k →
          k < (ctx.input_range.getD j (0, 0)).2 →
          ctx'.inputs.getD k none = none := by
  refine ⟨bridgeCtx1 info ctx, ?_, ?_⟩
  · rw [RunKernelFunc]
    rw [if_pos h1, if_pos h2, if_pos h3]
    dsimp only
    rw [marshalAttrs_error info.attribute_defs 0
      (marshalInputs info.input_defs 0 ctx).2.2 h4]
    rfl
  · intro j hj hjv k hk1 hk2
    exact marshalInputs_consumed info.input_defs 0 ctx j hj hjv k
      (by simpa using hk1) (by simpa using hk2)

/-- Witness for C9: on the concrete bad-attribute call, the error context has
slot 1 and slot 2 (the list input's range) consumed. -/
theorem runKernelFunc_attr_error_consumed_inputs_witness :
    wInfoBadAttr.input_defs.length ≤ wCtx.inputs.length ∧
      (∃ ctx', RunKernelFunc wEnv wInfoBadAttr wCtx = .error (.unimplemented, ctx') ∧
        ∀ j, (hj : j < wInfoBadAttr.input_defs.length) →
          (wInfoBadAttr.input_defs.get ⟨j, hj⟩).is_vector = true →
          ∀ k, (wCtx.input_range.getD j (0, 0)).1 ≤ k →
            k < (wCtx.input_range.getD j (0, 0)).2 →
            ctx'.inputs.getD k none = none) :=
  ⟨by decide,
    runKernelFunc_attr_error_consumed_inputs wEnv wInfoBadAttr wCtx (by decide)
      (by decide) (by decide) (by decide)⟩

/-! C5: unresolvable accelerator backend. -/

/-- C5: on a non-CPU backend that cannot be resolved to a known device type
(custom-device support absent, or no device type registered at the backend's
offset), RunKernelFunc returns successfully without invoking any plugin
function (the result is the same for every plugin function), raising no error
and leaving every context output slot unmodified. -/
theorem runKernelFunc_unresolved_backend_skips (env : Env) (info : OpKernelInfo)
    (ctx : KernelContext) (offset : Nat)
    (hb : info.backend = .custom offset)
    (hres : env.withCustomDevice = false ∨ GetGlobalDeviceType env offset = (""))
    (h1 : info.input_defs.length ≤ ctx.inputs.length)
    (h2 : info.output_defs.length ≤ ctx.outputs.length)
    (h3 : ctx.attrs.length = info.attribute_defs.length)
    (h4 : ∀ d ∈ info.attribute_defs, d.type_index.isSupported = true) :
    ∀ fn, RunKernelFunc env { info with userFn := fn } ctx =
        .ok (bridgeCtx1 info ctx) ∧
      (bridgeCtx1 info ctx).outputs = ctx.outputs := by
  intro fn
  obtain ⟨l, hl, _⟩ := marshalInputs_ctx info.input_defs 0 ctx
  constructor
  · rw [RunKernelFunc]
    rw [if_pos h1, if_pos h2, if_pos h3]
    dsimp only
    rw [marshalAttrs_ok info.attribute_defs 0
      (marshalInputs info.input_defs 0 ctx).2.2 h4]
    rw [hb]
    show (if env.withCustomDevice = true ∧ GetGlobalDeviceType env offset ≠ ("") then
        Except.ok (marshalInputs info.input_defs 0 ctx).2.2
      else Except.ok (marshalInputs info.input_defs 0 ctx).2.2) = _
    split <;> rfl
  · rw [bridgeCtx1, hl]

/-- Witness for C5: the concrete unresolvable-backend call returns ok with
outputs untouched. -/
theorem runKernelFunc_unresolved_backend_skips_witness :
    wInfoNpuBad.backend = .custom 7 ∧
      (RunKernelFunc wEnvCD { wInfoNpuBad with userFn := wInfoNpuBad.userFn } wCtx =
          .ok (bridgeCtx1 wInfoNpuBad wCtx) ∧
        (bridgeCtx1 wInfoNpuBad wCtx).outputs = wCtx.outputs) :=
  ⟨by decide,
    runKernelFunc_unresolved_backend_skips wEnvCD wInfoNpuBad wCtx 7 (by decide)
      (Or.inr (by decide)) (by decide) (by decide) (by decide) (by decide)
      wInfoNpuBad.userFn⟩

/-! C2: resolvable accelerator backend — the plugin function is never invoked
(the source returns right after setting the stream). -/

/-- C2 (divergence witness): with custom-device support compiled in and a
resolvable device type for the backend, RunKernelFunc returns immediately after
setting the stream: the call succeeds with the context completely unchanged —
the plugin function (which doubles its input into its output) is never invoked
and no output is written back.  The same call with the CPU backend does invoke
the plugin and writes 42 into the output slot. -/
theorem runKernelFunc_resolvable_custom_device_never_invokes :
    RunKernelFunc wEnvCD wInfoNpu wCtxNpu = .ok wCtxNpu ∧
      (∃ ctx', RunKernelFunc wEnvCD { wInfoNpu with backend := Backend.cpu } wCtxNpu =
          .ok ctx' ∧ ctx'.outputs = [42]) := by
  refine ⟨by rfl, { wCtxNpu with outputs := [42] }, by rfl, by rfl⟩

/-! C6: registration validation. -/

theorem lookupA_setA_self {α β : Type} [DecidableEq α] (l : List (α × β)) (a : α)
    (b : β) : lookupA (setA l a b) a = some b := by
  induction l with
  | nil => simp [setA, lookupA]
  | cons p rest ih =>
    by_cases h : p.1 = a
    · simp [setA, h, lookupA]
    · simp only [setA]
      rw [if_neg (by simpa using h)]
      simp only [lookupA]
      rw [if_neg (by simpa using h)]
      exact ih

theorem lookupA_setA_ne {α β : Type} [DecidableEq α] (l : List (α × β)) (a a' : α)
    (b : β) (h : a ≠ a') : lookupA (setA l a b) a' = lookupA l a' := by
  induction l with
  | nil => simp [setA, lookupA, h]
  | cons p rest ih =>
    by_cases hp : p.1 = a
    · simp only [setA]
      rw [if_pos (by simpa using hp)]
      simp only [lookupA]
      rw [if_neg h, if_neg (by simp [hp, h])]
    · simp only [setA]
      rw [if_neg (by simpa using hp)]
      simp only [lookupA]
      split <;> simp [ih]

theorem lookupKernel_insert_self (reg : KernelRegistry) (op : String)
    (key : KernelKey) (k : PhiKernel) :
    lookupKernel (insertKernel reg op key k) op key = some k := by
  simp only [insertKernel, lookupKernel, lookupA_setA_self]

theorem lookupKernel_insert_ne (reg : KernelRegistry) (op : String)
    (key : KernelKey) (k : PhiKernel) (op' : String) (key' : KernelKey)
    (h : op' ≠ op ∨ key' ≠ key) :
    lookupKernel (insertKernel reg op key k) op' key' = lookupKernel reg op' key' := by
  rcases h with h | h
  · simp only [insertKernel, lookupKernel]
    rw [lookupA_setA_ne _ _ _ _ (fun he => h he.symm)]
  · by_cases hop : op' = op
    · subst hop
      simp only [insertKernel, lookupKernel, lookupA_setA_self]
      rw [lookupA_setA_ne _ _ _ _ (fun he => h he.symm)]
      cases hb : lookupA reg.kernels op' <;> simp [hb, lookupA]
    · simp only [insertKernel, lookupKernel]
      rw [lookupA_setA_ne _ _ _ _ (fun he => hop he.symm)]

/-- C6: registering one kernel signature fails with a hard InvalidArgument
error exactly when the op has no compatible kernel family in the dispatch table
or a kernel is already registered under the identical kernel key; the error
carries the dispatch table unchanged, so in the duplicate case the previously
registered kernel stays installed.  Otherwise the new kernel (closure plus
ParseArgs record) is installed under (op name, kernel key), leaving every other
(op, key) binding unchanged. -/
theorem registerKernelWithMetaInfo_single_spec (reg : KernelRegistry)
    (info : OpKernelInfo) :
    (RegisterKernelWithMetaInfo [info] reg = .error (.invalidArgument, reg) ↔
      (HasCompatiblePtenKernel reg info.op_name = false ∨
        (lookupKernel reg info.op_name info.kernel_key).isSome = true)) ∧
    (HasCompatiblePtenKernel reg info.op_name = true →
      (lookupKernel reg info.op_name info.kernel_key).isSome = false →
      RegisterKernelWithMetaInfo [info] reg =
        .ok (insertKernel reg info.op_name info.kernel_key
          { info := info, args_def := ParseArgs info }) ∧
      lookupKernel (insertKernel reg info.op_name info.kernel_key
          { info := info, args_def := ParseArgs info }) info.op_name info.kernel_key =
        some { info := info, args_def := ParseArgs info } ∧
      (∀ op key, op ≠ info.op_name ∨ key ≠ info.kernel_key →
        lookupKernel (insertKernel reg info.op_name info.kernel_key
            { info := info, args_def := ParseArgs info }) op key =
          lookupKernel reg op key)) := by
  constructor
  · by_cases hc : HasCompatiblePtenKernel reg info.op_name = true
    · by_cases hd : (lookupKernel reg info.op_name info.kernel_key).isSome = true
      · simp [RegisterKernelWithMetaInfo, RegisterKernelWithMetaInfoStep, hc, hd]
      · simp [RegisterKernelWithMetaInfo, RegisterKernelWithMetaInfoStep, hc, hd]
    · simp [RegisterKernelWithMetaInfo, RegisterKernelWithMetaInfoStep, hc]
  · intro hc hd
    refine ⟨?_, lookupKernel_insert_self _ _ _ _, ?_⟩
    · simp [RegisterKernelWithMetaInfo, RegisterKernelWithMetaInfoStep, hc, hd]
    · intro op key h
      exact lookupKernel_insert_ne _ _ _ _ _ _ h

/-- Witness for C6: on the concrete table, registering wInfo succeeds and
installs it; the iff instance holds as well. -/
theorem registerKernelWithMetaInfo_single_spec_witness :
    HasCompatiblePtenKernel wReg wInfo.op_name = true ∧
      (lookupKernel wReg wInfo.op_name wInfo.kernel_key).isSome = false ∧
      (RegisterKernelWithMetaInfo [wInfo] wReg =
          .ok (insertKernel wReg wInfo.op_name wInfo.kernel_key
            { info := wInfo, args_def := ParseArgs wInfo }) ∧
        lookupKernel (insertKernel wReg wInfo.op_name wInfo.kernel_key
            { info := wInfo, args_def := ParseArgs wInfo }) wInfo.op_name
            wInfo.kernel_key =
          some { info := wInfo, args_def := ParseArgs wInfo } ∧
        (∀ op key, op ≠ wInfo.op_name ∨ key ≠ wInfo.kernel_key →
          lookupKernel (insertKernel wReg wInfo.op_name wInfo.kernel_key
              { info := wInfo, args_def := ParseArgs wInfo }) op key =
            lookupKernel wReg op key)) :=
  ⟨by decide, by rfl,
    (registerKernelWithMetaInfo_single_spec wReg wInfo).2 (by decide) (by rfl)⟩

/-! C10: batch registration is not atomic. -/

theorem registerKernelWithMetaInfo_append (A B : List OpKernelInfo)
    (reg : KernelRegistry) :
    RegisterKernelWithMetaInfo (A ++ B) reg =
      match RegisterKernelWithMetaInfo A reg with
      | .error er => .error er
      | .ok reg' => RegisterKernelWithMetaInfo B reg' := by
  induction A generalizing reg with
  | nil => rfl
  | cons info rest ih =>
    simp only [List.cons_append, RegisterKernelWithMetaInfo]
    cases RegisterKernelWithMetaInfoStep reg info <;> simp [ih]

theorem registerKernelWithMetaInfoMap_append (A B : List (String × List OpKernelInfo))
    (reg : KernelRegistry) :
    RegisterKernelWithMetaInfoMap (A ++ B) reg =
      match RegisterKernelWithMetaInfoMap A reg with
      | .error er => .error er
      | .ok reg' => RegisterKernelWithMetaInfoMap B reg' := by
  induction A generalizing reg with
  | nil => rfl
  | cons pair rest ih =>
    simp only [List.cons_append, RegisterKernelWithMetaInfoMap]
    cases RegisterKernelWithMetaInfo pair.2 reg <;> simp [ih]

/-- C10: batch registration is not atomic.  If the signatures before position
i all validate (reaching table state reg') and the i-th signature fails
validation, the whole RegisterKernelWithMetaInfo call fails while the table
keeps state reg' — every closure installed for the earlier signatures stays
installed.  Likewise RegisterKernelWithMetaInfoMap registers its op-name groups
in order, so the groups processed before a failing group stay registered in the
state the error carries. -/
theorem register_batch_not_atomic :
    (∀ (pre : List OpKernelInfo) (bad : OpKernelInfo) (rest : List OpKernelInfo)
      (reg reg' : KernelRegistry) (e : KernelErr),
      RegisterKernelWithMetaInfo pre reg = .ok reg' →
      RegisterKernelWithMetaInfoStep reg' bad = .error e →
      RegisterKernelWithMetaInfo (pre ++ bad :: rest) reg = .error (e, reg')) ∧
    (∀ (preG : List (String × List OpKernelInfo)) (badOp : String)
      (badInfos : List OpKernelInfo) (restG : List (String × List OpKernelInfo))
      (reg reg' regF : KernelRegistry) (e : KernelErr),
      RegisterKernelWithMetaInfoMap preG reg = .ok reg' →
      RegisterKernelWithMetaInfo badInfos reg' = .error (e, regF) →
      RegisterKernelWithMetaInfoMap (preG ++ (badOp, badInfos) :: restG) reg =
        .error (e, regF)) := by
  constructor
  · intro pre bad rest reg reg' e h1 h2
    rw [registerKernelWithMetaInfo_append, h1]
    simp only [RegisterKernelWithMetaInfo, h2]
  · intro preG badOp badInfos restG reg reg' regF e h1 h2
    rw [registerKernelWithMetaInfoMap_append, h1]
    simp only [RegisterKernelWithMetaInfoMap, h2]

/-- Witness for C10: registering wInfo then a duplicate of wInfo fails on the
duplicate, and the error state still holds wInfo's freshly installed kernel. -/
theorem register_batch_not_atomic_witness :
    RegisterKernelWithMetaInfo [wInfo] wReg =
        .ok (insertKernel wReg wInfo.op_name wInfo.kernel_key
          { info := wInfo, args_def := ParseArgs wInfo }) ∧
      RegisterKernelWithMetaInfoStep (insertKernel wReg wInfo.op_name wInfo.kernel_key
          { info := wInfo, args_def := ParseArgs wInfo }) wInfo =
        .error .invalidArgument ∧
      RegisterKernelWithMetaInfo ([wInfo] ++ wInfo :: []) wReg =
        .error (.invalidArgument, insertKernel wReg wInfo.op_name wInfo.kernel_key
          { info := wInfo, args_def := ParseArgs wInfo }) :=
  ⟨by rfl, by rfl,
    register_batch_not_atomic.1 [wInfo] wInfo [] wReg
      (insertKernel wReg wInfo.op_name wInfo.kernel_key
        { info := wInfo, args_def := ParseArgs wInfo }) .invalidArgument
      (by rfl) (by rfl)⟩

/-! C1 development, part 1: slot-range write lemmas. -/

theorem setRangeRev_length (outs : List Tensor) (f k : Nat) (v : List Tensor) :
    (setRangeRev outs f k v).length = outs.length := by
  induction k generalizing outs v with
  | zero => rfl
  | succ k ih => rw [setRangeRev, ih, List.length_set]

theorem setRangeFwd_length (outs : List Tensor) (f : Nat) (v : List Tensor) :
    (setRangeFwd outs f v).length = outs.length := by
  induction v generalizing outs f with
  | nil => rfl
  | cons x rest ih => rw [setRangeFwd, ih, List.length_set]

theorem setRangeRev_getD_outside (outs : List Tensor) (f k : Nat) (v : List Tensor)
    (p : Nat) (d : Tensor) (h : p < f ∨ f + k ≤ p) :
    (setRangeRev outs f k v).getD p d = outs.getD p d := by
  induction k generalizing outs v with
  | zero => rfl
  | succ k ih =>
    rw [setRangeRev, ih _ _ (by omega), getD_set_ne _ (by omega)]

theorem setRangeFwd_set_comm (outs : List Tensor) (f : Nat) (v : List Tensor)
    (j : Nat) (a : Tensor) (h : j < f ∨ f + v.length ≤ j) :
    setRangeFwd (outs.set j a) f v = (setRangeFwd outs f v).set j a := by
  induction v generalizing outs f with
  | nil => rfl
  | cons x rest ih =>
    rw [setRangeFwd, setRangeFwd, List.set_comm _ _ _ (by simp at h; omega)]
    rw [ih _ _ (by simp at h; omega)]

theorem setRangeRev_set_comm (outs : List Tensor) (f k : Nat) (v : List Tensor)
    (j : Nat) (a : Tensor) (h : j < f ∨ f + k ≤ j) :
    setRangeRev (outs.set j a) f k v = (setRangeRev outs f k v).set j a := by
  induction k generalizing outs v with
  | zero => rfl
  | succ k ih =>
    rw [setRangeRev, setRangeRev, List.set_comm _ _ _ (by omega), ih _ _ (by omega)]

theorem setRangeRev_setRangeRev_comm (outs : List Tensor) (f1 k1 : Nat)
    (v1 : List Tensor) (f2 k2 : Nat) (v2 : List Tensor)
    (h : f1 + k1 ≤ f2 ∨ f2 + k2 ≤ f1) :
    setRangeRev (setRangeRev outs f2 k2 v2) f1 k1 v1 =
      setRangeRev (setRangeRev outs f1 k1 v1) f2 k2 v2 := by
  induction k1 generalizing outs v1 with
  | zero => rfl
  | succ k1 ih =>
    rw [setRangeRev, setRangeRev]
    rw [← setRangeRev_set_comm _ _ _ _ _ _ (by omega)]
    rw [ih _ _ (by omega)]

theorem setRangeFwd_concat (outs : List Tensor) (f : Nat) (v : List Tensor)
    (x : Tensor) :
    setRangeFwd outs f (v ++ [x]) = (setRangeFwd outs f v).set (f + v.length) x := by
  induction v generalizing outs f with
  | nil => simp [setRangeFwd]
  | cons y rest ih =>
    rw [List.cons_append, setRangeFwd, setRangeFwd, ih]
    congr 1
    simp
    omega

theorem setRangeRev_eq_setRangeFwd (outs : List Tensor) (f k : Nat)
    (v : List Tensor) (hv : v.length = k) :
    setRangeRev outs f k v = setRangeFwd outs f v := by
  induction k generalizing outs v with
  | zero => rw [List.length_eq_zero] at hv; subst hv; rfl
  | succ k ih =>
    rcases List.eq_nil_or_concat v with rfl | ⟨v1, x, rfl⟩
    · simp at hv
    · rw [List.concat_eq_append] at hv ⊢
      have hv1 : v1.length = k := by simp at hv; omega
      rw [setRangeRev, List.getLastD_concat, List.dropLast_concat]
      rw [ih _ _ hv1]
      rw [setRangeFwd_concat, hv1]
      rw [setRangeFwd_set_comm _ _ _ _ _ (by omega)]

theorem setRangeRev_getD_inside (outs : List Tensor) (f k : Nat) (v : List Tensor)
    (hv : v.length = k) (hb : f + k ≤ outs.length) (j : Nat) (hj : j < k) :
    (setRangeRev outs f k v).getD (f + j) 0 = v.getD j 0 := by
  induction k generalizing outs v j with
  | zero => omega
  | succ k ih =>
    rcases List.eq_nil_or_concat v with rfl | ⟨v1, x, rfl⟩
    · simp at hv
    · rw [List.concat_eq_append] at hv ⊢
      have hv1 : v1.length = k := by simp at hv; omega
      rw [setRangeRev, List.getLastD_concat, List.dropLast_concat]
      by_cases hjk : j = k
      · subst hjk
        rw [setRangeRev_getD_outside _ _ _ _ _ _ (by omega)]
        rw [getD_set_lt _ (by omega)]
        rw [List.getD_eq_getElem?_getD, List.getElem?_append_right (by omega)]
        simp [hv1]
      · rw [ih (outs.set (f + k) x) v1 hv1 (by rw [List.length_set]; omega) j
          (by omega)]
        rw [List.getD_eq_getElem?_getD, List.getD_eq_getElem?_getD,
          List.getElem?_append_left (by omega)]

/-! C1 development, part 2: counting and shape lemmas. -/

theorem countScalarZ_append (A B : List (TensorArgDef × Nat × Nat)) :
    countScalarZ (A ++ B) = countScalarZ A + countScalarZ B := by
  induction A with
  | nil => simp [countScalarZ]
  | cons x rest ih => simp [countScalarZ, ih]; omega

theorem countVecZ_append (A B : List (TensorArgDef × Nat × Nat)) :
    countVecZ (A ++ B) = countVecZ A + countVecZ B := by
  induction A with
  | nil => simp [countVecZ]
  | cons x rest ih => simp [countVecZ, ih]; omega

theorem countScalarZ_reverse (L : List (TensorArgDef × Nat × Nat)) :
    countScalarZ L.reverse = countScalarZ L := by
  induction L with
  | nil => rfl
  | cons x rest ih =>
    rw [List.reverse_cons, countScalarZ_append, ih, countScalarZ, countScalarZ,
      countScalarZ]
    omega

theorem countVecZ_reverse (L : List (TensorArgDef × Nat × Nat)) :
    countVecZ L.reverse = countVecZ L := by
  induction L with
  | nil => rfl
  | cons x rest ih =>
    rw [List.reverse_cons, countVecZ_append, ih, countVecZ, countVecZ, countVecZ]
    omega

theorem vecShapesOk_length (L : List (TensorArgDef × Nat × Nat))
    (vs : List (List Tensor)) (h : vecShapesOk L vs = true) :
    vs.length = countVecZ L := by
  induction L generalizing vs with
  | nil =>
    rw [vecShapesOk] at h
    simp [List.isEmpty_iff] at h
    simp [h, countVecZ]
  | cons x rest ih =>
    rw [vecShapesOk] at h
    by_cases hx : x.1.is_vector
    · rw [if_pos hx] at h
      simp only [Bool.and_eq_true] at h
      cases vs with
      | nil => simp at h
      | cons v vs' =>
        rw [countVecZ, if_pos hx, List.length_cons, ih vs' h.2]
        omega
    · rw [if_neg hx] at h
      rw [countVecZ, if_neg hx, ih vs h]
      omega

theorem countScalarZ_zip (defs : List TensorArgDef) (ranges : List (Nat × Nat))
    (h : defs.length ≤ ranges.length) :
    countScalarZ (defs.zip ranges) = countScalar defs := by
  induction defs generalizing ranges with
  | nil => rfl
  | cons d rest ih =>
    cases ranges with
    | nil => simp at h
    | cons r rs =>
      rw [List.zip_cons_cons, countScalarZ, countScalar, ih rs (by simpa using h)]

theorem countVecZ_zip (defs : List TensorArgDef) (ranges : List (Nat × Nat))
    (h : defs.length ≤ ranges.length) :
    countVecZ (defs.zip ranges) = countVec defs := by
  induction defs generalizing ranges with
  | nil => rfl
  | cons d rest ih =>
    cases ranges with
    | nil => simp at h
    | cons r rs =>
      rw [List.zip_cons_cons, countVecZ, countVec, ih rs (by simpa using h)]

/-! C1 development, part 3: the source's reverse write-back loop equals the
structural reverse specification. -/

theorem writeBackAux_append (A B : List (TensorArgDef × Nat × Nat))
    (outs ss : List Tensor) (vs : List (List Tensor)) :
    writeBackAux (A ++ B) outs ss vs =
      writeBackAux B (writeBackAux A outs ss vs).1
        (writeBackAux A outs ss vs).2.1 (writeBackAux A outs ss vs).2.2 := by
  induction A generalizing outs ss vs with
  | nil => rfl
  | cons x rest ih =>
    by_cases hx : x.1.is_vector
    · rw [List.cons_append, writeBackAux, writeBackAux]
      rw [if_pos hx, if_pos hx]
      exact ih _ _ _
    · rw [List.cons_append, writeBackAux, writeBackAux]
      rw [if_neg hx, if_neg hx]
      exact ih _ _ _

theorem writeBackAux_single_vec (x : TensorArgDef × Nat × Nat) (R ss : List Tensor)
    (vs : List (List Tensor)) (hx : x.1.is_vector = true) :
    writeBackAux [x] R ss vs =
      (setRangeRev R x.2.1 (x.2.2 - x.2.1) (vs.getLastD []), ss, vs.dropLast) := by
  rw [writeBackAux, if_pos hx]
  rfl

theorem writeBackAux_single_scalar (x : TensorArgDef × Nat × Nat) (R ss : List Tensor)
    (vs : List (List Tensor)) (hx : ¬x.1.is_vector = true) :
    writeBackAux [x] R ss vs = (R.set x.2.1 (ss.getLastD 0), ss.dropLast, vs) := by
  rw [writeBackAux, if_neg hx]
  rfl

/-- Processing a reversed suffix consumes exactly its stack entries from the
back, leaving any prefix of the stacks untouched and producing the same slots
as with the exact stacks. -/
theorem writeBackAux_stacks (M : List (TensorArgDef × Nat × Nat))
    (outs : List Tensor) (pre ssM : List Tensor) (preV vsM : List (List Tensor))
    (hs : ssM.length = countScalarZ M) (hv : vsM.length = countVecZ M) :
    writeBackAux M outs (pre ++ ssM) (preV ++ vsM) =
      ((writeBackAux M outs ssM vsM).1, pre, preV) := by
  induction M generalizing outs pre ssM preV vsM with
  | nil =>
    rw [countScalarZ] at hs
    rw [countVecZ] at hv
    rw [List.length_eq_zero] at hs hv
    subst hs; subst hv
    simp [writeBackAux]
  | cons x rest ih =>
    by_cases hx : x.1.is_vector
    · rw [countVecZ, if_pos hx] at hv
      rw [countScalarZ, if_pos hx, Nat.zero_add] at hs
      rcases List.eq_nil_or_concat vsM with rfl | ⟨vs1, y, rfl⟩
      · simp only [List.length_nil] at hv; omega
      · rw [List.concat_eq_append] at hv ⊢
        have hv1 : vs1.length = countVecZ rest := by
          simp only [List.length_append, List.length_cons, List.length_nil] at hv
          omega
        rw [writeBackAux, if_pos hx, writeBackAux, if_pos hx]
        rw [getLastD_append_ne_nil preV (vs1 ++ [y]) (by simp)]
        rw [dropLast_append_ne_nil preV (vs1 ++ [y]) (by simp)]
        rw [List.getLastD_concat, List.dropLast_concat]
        exact ih _ _ _ _ _ hs hv1
    · rw [countScalarZ, if_neg hx] at hs
      rw [countVecZ, if_neg hx, Nat.zero_add] at hv
      rcases List.eq_nil_or_concat ssM with rfl | ⟨ss1, y, rfl⟩
      · simp only [List.length_nil] at hs; omega
      · rw [List.concat_eq_append] at hs ⊢
        have hs1 : ss1.length = countScalarZ rest := by
          simp only [List.length_append, List.length_cons, List.length_nil] at hs
          omega
        rw [writeBackAux, if_neg hx, writeBackAux, if_neg hx]
        rw [getLastD_append_ne_nil pre (ss1 ++ [y]) (by simp)]
        rw [dropLast_append_ne_nil pre (ss1 ++ [y]) (by simp)]
        rw [List.getLastD_concat, List.dropLast_concat]
        exact ih _ _ _ _ _ hs1 hv

/-- The reversed LIFO write-back loop of the source computes exactly the
structural reverse write-back. -/
theorem writeBackAux_rev_eq (L : List (TensorArgDef × Nat × Nat))
    (outs ss : List Tensor) (vs : List (List Tensor))
    (hs : ss.length = countScalarZ L) (hv : vs.length = countVecZ L) :
    (writeBackAux L.reverse outs ss vs).1 = writeBackRevSpec L outs ss vs := by
  induction L generalizing outs ss vs with
  | nil => rfl
  | cons x rest ih =>
    rw [List.reverse_cons, writeBackAux_append]
    by_cases hx : x.1.is_vector
    · have hs' : ss.length = countScalarZ rest := by
        rw [countScalarZ, if_pos hx, Nat.zero_add] at hs; exact hs
      rw [countVecZ, if_pos hx] at hv
      cases vs with
      | nil => simp only [List.length_nil] at hv; omega
      | cons v0 vs1 =>
        have hv1 : vs1.length = countVecZ rest := by
          simp only [List.length_cons] at hv; omega
        have hsplit := writeBackAux_stacks rest.reverse outs [] ss [v0] vs1
          (by rw [countScalarZ_reverse]; exact hs')
          (by rw [countVecZ_reverse]; exact hv1)
        simp only [List.nil_append, List.singleton_append] at hsplit
        rw [hsplit]
        dsimp only
        rw [writeBackAux_single_vec x _ _ _ hx]
        dsimp only
        rw [writeBackRevSpec, if_pos hx]
        simp only [List.headD_cons, List.tail_cons]
        rw [show (([v0] : List (List Tensor))).getLastD [] = v0 from rfl]
        rw [ih outs ss vs1 hs' hv1]
    · have hv' : vs.length = countVecZ rest := by
        rw [countVecZ, if_neg hx, Nat.zero_add] at hv; exact hv
      rw [countScalarZ, if_neg hx] at hs
      cases ss with
      | nil => simp only [List.length_nil] at hs; omega
      | cons s0 ss1 =>
        have hs1 : ss1.length = countScalarZ rest := by
          simp only [List.length_cons] at hs; omega
        have hsplit := writeBackAux_stacks rest.reverse outs [s0] ss1 [] vs
          (by rw [countScalarZ_reverse]; exact hs1)
          (by rw [countVecZ_reverse]; exact hv')
        simp only [List.nil_append, List.singleton_append] at hsplit
        rw [hsplit]
        dsimp only
        rw [writeBackAux_single_scalar x _ _ _ hx]
        dsimp only
        rw [writeBackRevSpec, if_neg hx]
        simp only [List.headD_cons, List.tail_cons]
        rw [show (([s0] : List Tensor)).getLastD 0 = s0 from rfl]
        rw [ih outs ss1 vs hs1 hv']


/-! C1 development, part 4: with pairwise-disjoint output ranges, the reverse
write-back equals the spec's hypothetical forward write-back. -/

theorem writeBackFwdSpec_comm (rest : List (TensorArgDef × Nat × Nat))
    (outs ss : List Tensor) (vs : List (List Tensor)) (f k : Nat) (v : List Tensor)
    (hd : rest.all (fun y => intervalDisjoint f k (outLo y) (outSize y)) = true)
    (hsh : vecShapesOk rest vs = true) :
    writeBackFwdSpec rest (setRangeRev outs f k v) ss vs =
      setRangeRev (writeBackFwdSpec rest outs ss vs) f k v := by
  induction rest generalizing outs ss vs with
  | nil => rfl
  | cons y rest' ih =>
    rw [List.all_cons, Bool.and_eq_true] at hd
    obtain ⟨hdy, hdr⟩ := hd
    rw [intervalDisjoint, Bool.or_eq_true, decide_eq_true_eq, decide_eq_true_eq]
      at hdy
    rw [vecShapesOk] at hsh
    by_cases hy : y.1.is_vector
    · rw [if_pos hy] at hsh
      simp only [Bool.and_eq_true, decide_eq_true_eq] at hsh
      obtain ⟨⟨_, hlen⟩, hsh'⟩ := hsh
      rw [outLo, outSize, if_pos hy] at hdy
      rw [writeBackFwdSpec, if_pos hy, writeBackFwdSpec, if_pos hy]
      rw [← setRangeRev_eq_setRangeFwd (setRangeRev outs f k v) y.2.1 _ _ hlen]
      rw [← setRangeRev_eq_setRangeFwd outs y.2.1 _ _ hlen]
      rw [setRangeRev_setRangeRev_comm _ _ _ _ _ _ _ (by omega)]
      rw [ih _ _ _ hdr hsh']
    · rw [if_neg hy] at hsh
      rw [outLo, outSize, if_neg hy] at hdy
      rw [writeBackFwdSpec, if_neg hy, writeBackFwdSpec, if_neg hy]
      rw [← setRangeRev_set_comm _ _ _ _ _ _ (by omega)]
      rw [ih _ _ _ hdr hsh]

theorem writeBackFwdSpec_comm_set (rest : List (TensorArgDef × Nat × Nat))
    (outs ss : List Tensor) (vs : List (List Tensor)) (j : Nat) (a : Tensor)
    (hd : rest.all (fun y => intervalDisjoint j 1 (outLo y) (outSize y)) = true)
    (hsh : vecShapesOk rest vs = true) :
    writeBackFwdSpec rest (outs.set j a) ss vs =
      (writeBackFwdSpec rest outs ss vs).set j a := by
  induction rest generalizing outs ss vs with
  | nil => rfl
  | cons y rest' ih =>
    rw [List.all_cons, Bool.and_eq_true] at hd
    obtain ⟨hdy, hdr⟩ := hd
    rw [intervalDisjoint, Bool.or_eq_true, decide_eq_true_eq, decide_eq_true_eq]
      at hdy
    rw [vecShapesOk] at hsh
    by_cases hy : y.1.is_vector
    · rw [if_pos hy] at hsh
      simp only [Bool.and_eq_true, decide_eq_true_eq] at hsh
      obtain ⟨⟨_, hlen⟩, hsh'⟩ := hsh
      rw [outLo, outSize, if_pos hy] at hdy
      rw [writeBackFwdSpec, if_pos hy, writeBackFwdSpec, if_pos hy]
      rw [setRangeFwd_set_comm _ _ _ _ _ (by rw [hlen]; omega)]
      rw [ih _ _ _ hdr hsh']
    · rw [if_neg hy] at hsh
      rw [outLo, outSize, if_neg hy] at hdy
      rw [writeBackFwdSpec, if_neg hy, writeBackFwdSpec, if_neg hy]
      rw [List.set_comm _ _ _ (by omega)]
      rw [ih _ _ _ hdr hsh]

/-- With pairwise-disjoint output slot ranges and storage shapes matching the
ranges, the reverse-order write-back produces exactly the same final slots as
the spec's hypothetical forward-order write-back. -/
theorem revSpec_eq_fwdSpec (L : List (TensorArgDef × Nat × Nat))
    (outs ss : List Tensor) (vs : List (List Tensor))
    (hdis : disjointAll L = true) (hsh : vecShapesOk L vs = true) :
    writeBackRevSpec L outs ss vs = writeBackFwdSpec L outs ss vs := by
  induction L generalizing outs ss vs with
  | nil => rfl
  | cons x rest ih =>
    rw [disjointAll, Bool.and_eq_true] at hdis
    obtain ⟨hdx, hdr⟩ := hdis
    rw [vecShapesOk] at hsh
    by_cases hx : x.1.is_vector
    · rw [if_pos hx] at hsh
      simp only [Bool.and_eq_true, decide_eq_true_eq] at hsh
      obtain ⟨⟨_, hlen⟩, hsh'⟩ := hsh
      rw [writeBackRevSpec, if_pos hx, writeBackFwdSpec, if_pos hx]
      rw [ih _ _ _ hdr hsh']
      rw [← setRangeRev_eq_setRangeFwd outs x.2.1 _ _ hlen]
      exact (writeBackFwdSpec_comm rest outs ss vs.tail x.2.1 (x.2.2 - x.2.1)
        (vs.headD []) (by simpa [outDisjoint, outLo, outSize, hx] using hdx)
        hsh').symm
    · rw [if_neg hx] at hsh
      rw [writeBackRevSpec, if_neg hx, writeBackFwdSpec, if_neg hx]
      rw [ih _ _ _ hdr hsh]
      exact (writeBackFwdSpec_comm_set rest outs ss.tail vs x.2.1 (ss.headD 0)
        (by simpa [outDisjoint, outLo, outSize, hx] using hdx) hsh).symm

/-! C1 development, part 5: slot fidelity of the write-back. -/

theorem writeBackRevSpec_length (L : List (TensorArgDef × Nat × Nat))
    (outs ss : List Tensor) (vs : List (List Tensor)) :
    (writeBackRevSpec L outs ss vs).length = outs.length := by
  induction L generalizing outs ss vs with
  | nil => rfl
  | cons x rest ih =>
    by_cases hx : x.1.is_vector
    · rw [writeBackRevSpec, if_pos hx, setRangeRev_length, ih]
    · rw [writeBackRevSpec, if_neg hx, List.length_set, ih]

/-- Slot fidelity: with disjoint in-bounds output ranges and matching storage
shapes, after the reverse write-back every output's slots hold exactly its own
storage's values. -/
theorem revSpec_fidelity (L : List (TensorArgDef × Nat × Nat))
    (outs ss : List Tensor) (vs : List (List Tensor)) :
    disjointAll L = true → vecShapesOk L vs = true →
    rangesInBounds L outs.length = true →
    ∀ i, (hi : i < L.length) →
      if L[i].1.is_vector then
        ∀ k, k < L[i].2.2 - L[i].2.1 →
          (writeBackRevSpec L outs ss vs).getD (L[i].2.1 + k) 0 =
            (vs.getD (countVecZ (L.take i)) []).getD k 0
      else
        (writeBackRevSpec L outs ss vs).getD (L[i].2.1) 0 =
          ss.getD (countScalarZ (L.take i)) 0 := by
  induction L generalizing outs ss vs with
  | nil => intro _ _ _ i hi; simp at hi
  | cons x rest ih =>
    intro hdis hsh hb i hi
    rw [disjointAll, Bool.and_eq_true] at hdis
    obtain ⟨hdx, hdr⟩ := hdis
    rw [vecShapesOk] at hsh
    rw [rangesInBounds, List.all_cons, Bool.and_eq_true] at hb
    obtain ⟨hbx, hbr⟩ := hb
    rw [decide_eq_true_eq] at hbx
    cases i with
    | zero =>
      rw [show (x :: rest)[0] = x from rfl]
      simp only [List.take_zero]
      by_cases hx : x.1.is_vector
      · rw [if_pos hx]
        intro k hk
        rw [if_pos hx] at hsh
        simp only [Bool.and_eq_true, decide_eq_true_eq] at hsh
        obtain ⟨⟨_, hlen⟩, hsh'⟩ := hsh
        rw [outLo, outSize, if_pos hx] at hbx
        rw [writeBackRevSpec, if_pos hx]
        rw [setRangeRev_getD_inside _ _ _ _ hlen
          (by rw [writeBackRevSpec_length]; omega) k hk]
        rw [show countVecZ [] = 0 from rfl, getD_zero_eq_headD]
      · rw [if_neg hx]
        rw [outLo, outSize, if_neg hx] at hbx
        rw [writeBackRevSpec, if_neg hx]
        rw [getD_set_lt _ (by rw [writeBackRevSpec_length]; omega)]
        rw [show countScalarZ [] = 0 from rfl, getD_zero_eq_headD]
    | succ i =>
      have hi' : i < rest.length := by simpa using hi
      rw [show (x :: rest)[i + 1] = rest[i] from rfl]
      simp only [List.take_succ_cons]
      have hdxy : outDisjoint x rest[i] = true := by
        rw [List.all_eq_true] at hdx
        exact hdx _ (List.getElem_mem hi')
      by_cases hx : x.1.is_vector
      · rw [if_pos hx] at hsh
        simp only [Bool.and_eq_true, decide_eq_true_eq] at hsh
        obtain ⟨⟨_, hlen⟩, hsh'⟩ := hsh
        rw [writeBackRevSpec, if_pos hx]
        have ihi := ih outs ss vs.tail hdr hsh' hbr i hi'
        by_cases hx' : rest[i].1.is_vector
        · rw [if_pos hx'] at ihi ⊢
          simp [outDisjoint, intervalDisjoint, outLo, outSize, hx, hx'] at hdxy
          intro k hk
          rw [setRangeRev_getD_outside _ _ _ _ _ _ (by omega)]
          rw [countVecZ, if_pos hx, Nat.add_comm 1 (countVecZ (rest.take i)),
            getD_succ_eq_tail]
          exact ihi k hk
        · rw [if_neg hx'] at ihi ⊢
          simp [outDisjoint, intervalDisjoint, outLo, outSize, hx, hx'] at hdxy
          rw [setRangeRev_getD_outside _ _ _ _ _ _ (by omega)]
          rw [countScalarZ, if_pos hx, Nat.zero_add]
          exact ihi
      · rw [if_neg hx] at hsh
        rw [writeBackRevSpec, if_neg hx]
        have ihi := ih outs ss.tail vs hdr hsh hbr i hi'
        by_cases hx' : rest[i].1.is_vector
        · rw [if_pos hx'] at ihi ⊢
          simp [outDisjoint, intervalDisjoint, outLo, outSize, hx, hx'] at hdxy
          intro k hk
          rw [getD_set_ne _ (by omega)]
          rw [countVecZ, if_neg hx, Nat.zero_add]
          exact ihi k hk
        · rw [if_neg hx'] at ihi ⊢
          simp [outDisjoint, intervalDisjoint, outLo, outSize, hx, hx'] at hdxy
          rw [getD_set_ne _ (by omega)]
          rw [countScalarZ, if_neg hx, Nat.add_comm 1 (countScalarZ (rest.take i)),
            getD_succ_eq_tail]
          exact ihi


/-! C1 development, part 6: gluing the pieces onto RunKernelFunc. -/

theorem countScalarZ_zip_take (defs : List TensorArgDef) (ranges : List (Nat × Nat))
    (i : Nat) (h : defs.length ≤ ranges.length) :
    countScalarZ ((defs.zip ranges).take i) = countScalar (defs.take i) := by
  induction defs generalizing ranges i with
  | nil => simp [countScalarZ, countScalar]
  | cons d rest ih =>
    cases ranges with
    | nil => simp at h
    | cons r rs =>
      cases i with
      | zero => simp [countScalarZ, countScalar]
      | succ i =>
        rw [List.zip_cons_cons, List.take_succ_cons, List.take_succ_cons,
          countScalarZ, countScalar, ih rs i (by simpa using h)]

theorem countVecZ_zip_take (defs : List TensorArgDef) (ranges : List (Nat × Nat))
    (i : Nat) (h : defs.length ≤ ranges.length) :
    countVecZ ((defs.zip ranges).take i) = countVec (defs.take i) := by
  induction defs generalizing ranges i with
  | nil => simp [countVecZ, countVec]
  | cons d rest ih =>
    cases ranges with
    | nil => simp at h
    | cons r rs =>
      cases i with
      | zero => simp [countVecZ, countVec]
      | succ i =>
        rw [List.zip_cons_cons, List.take_succ_cons, List.take_succ_cons,
          countVecZ, countVec, ih rs i (by simpa using h)]

theorem outputRanges_length (info : OpKernelInfo) (ctx : KernelContext) :
    (outputRanges info ctx).length = info.output_defs.length := by
  simp [outputRanges]

theorem outItems_length (info : OpKernelInfo) (ctx : KernelContext) :
    (outItems info ctx).length = info.output_defs.length := by
  simp [outItems, outputRanges]

theorem outItems_getElem (info : OpKernelInfo) (ctx : KernelContext) (i : Nat)
    (hiz : i < (outItems info ctx).length) (hi : i < info.output_defs.length) :
    (outItems info ctx)[i] = (info.output_defs[i], ctx.output_range.getD i (0, 0)) := by
  simp only [outItems] at hiz ⊢
  rw [List.getElem_zip]
  simp only [outputRanges]
  rw [List.getElem_map, List.getElem_range]

theorem countScalarZ_outItems (info : OpKernelInfo) (ctx : KernelContext) :
    countScalarZ (outItems info ctx) = countScalar info.output_defs := by
  simp only [outItems]
  rw [show info.output_defs.zip (outputRanges info ctx) =
    (info.output_defs.zip (outputRanges info ctx)).take info.output_defs.length
    from by rw [List.take_of_length_le (by rw [List.length_zip, outputRanges_length]; omega)]]
  rw [countScalarZ_zip_take _ _ _ (le_of_eq (outputRanges_length info ctx).symm)]
  rw [List.take_of_length_le (by omega)]

theorem countVecZ_outItems (info : OpKernelInfo) (ctx : KernelContext) :
    countVecZ (outItems info ctx) = countVec info.output_defs := by
  simp only [outItems]
  rw [show info.output_defs.zip (outputRanges info ctx) =
    (info.output_defs.zip (outputRanges info ctx)).take info.output_defs.length
    from by rw [List.take_of_length_le (by rw [List.length_zip, outputRanges_length]; omega)]]
  rw [countVecZ_zip_take _ _ _ (le_of_eq (outputRanges_length info ctx).symm)]
  rw [List.take_of_length_le (by omega)]

theorem countScalarZ_outItems_take (info : OpKernelInfo) (ctx : KernelContext)
    (i : Nat) :
    countScalarZ ((outItems info ctx).take i) =
      countScalar (info.output_defs.take i) := by
  simp only [outItems]
  exact countScalarZ_zip_take _ _ _ (le_of_eq (outputRanges_length info ctx).symm)

theorem countVecZ_outItems_take (info : OpKernelInfo) (ctx : KernelContext)
    (i : Nat) :
    countVecZ ((outItems info ctx).take i) = countVec (info.output_defs.take i) := by
  simp only [outItems]
  exact countVecZ_zip_take _ _ _ (le_of_eq (outputRanges_length info ctx).symm)

/-- C1: round-trip output fidelity of the invocation bridge.  For a CPU-backend
call whose context satisfies the three size invariants, whose attribute types
are all supported, and whose output ranges are in-bounds and pairwise disjoint
(no two outputs alias shared storage), RunKernelFunc succeeds, and (1) every
output's context slots afterwards hold exactly the values the plugin function
wrote into that output's storage during the call — scalar or list-valued, at
every declaration position — and (2) the reverse-order write-back leaves the
slots exactly as the spec's hypothetical forward-order write-back would.  The
plugin is assumed shape-preserving, as the in-place storage mutation of the
source guarantees by construction: one final value per scalar storage, and per
list storage a value list of the slot-range's length. -/
theorem runKernelFunc_output_roundtrip
    (env : Env) (info : OpKernelInfo) (ctx : KernelContext)
    (hback : info.backend = Backend.cpu)
    (h1 : info.input_defs.length ≤ ctx.inputs.length)
    (h2 : info.output_defs.length ≤ ctx.outputs.length)
    (h3 : ctx.attrs.length = info.attribute_defs.length)
    (h4 : ∀ d ∈ info.attribute_defs, d.type_index.isSupported = true)
    (hbound : rangesInBounds (outItems info ctx) ctx.outputs.length = true)
    (hdis : disjointAll (outItems info ctx) = true)
    (hslen : (bridgeResult info ctx).1.length = countScalar info.output_defs)
    (hvsh : vecShapesOk (outItems info ctx) (bridgeResult info ctx).2 = true) :
    ∃ ctx', RunKernelFunc env info ctx = .ok ctx' ∧
      (∀ i, (hi : i < info.output_defs.length) →
        if (info.output_defs[i]).is_vector then
          ∀ k, k < (ctx.output_range.getD i (0, 0)).2 -
              (ctx.output_range.getD i (0, 0)).1 →
            ctx'.outputs.getD ((ctx.output_range.getD i (0, 0)).1 + k) 0 =
              ((bridgeResult info ctx).2.getD
                (countVec (info.output_defs.take i)) []).getD k 0
        else
          ctx'.outputs.getD (ctx.output_range.getD i (0, 0)).1 0 =
            (bridgeResult info ctx).1.getD
              (countScalar (info.output_defs.take i)) 0) ∧
      ctx'.outputs = writeBackFwdSpec (outItems info ctx) ctx.outputs
        (bridgeResult info ctx).1 (bridgeResult info ctx).2 := by
  obtain ⟨l, hl, _⟩ := marshalInputs_ctx info.input_defs 0 ctx
  have hOuts : (marshalInputs info.input_defs 0 ctx).2.2.outputs = ctx.outputs := by
    rw [hl]
  have hRanges : (marshalInputs info.input_defs 0 ctx).2.2.output_range =
      ctx.output_range := by
    rw [hl]
  have hAttrsF : (marshalInputs info.input_defs 0 ctx).2.2.attrs = ctx.attrs := by
    rw [hl]
  have hOR : outputRanges info ((marshalInputs info.input_defs 0 ctx).2.2) =
      outputRanges info ctx := by
    simp [outputRanges, hRanges]
  have hAttrs2 : marshalAttrs info.attribute_defs 0
      ((marshalInputs info.input_defs 0 ctx).2.2) = .ok (bridgeAttrs info ctx) := by
    rw [marshalAttrs_ok _ _ _ h4, bridgeAttrs]
    simp [hAttrsF]
  have hRun : RunKernelFunc env info ctx = .ok
      { (marshalInputs info.input_defs 0 ctx).2.2 with outputs :=
        (writeBackAux ((info.output_defs.zip
            (outputRanges info ((marshalInputs info.input_defs 0 ctx).2.2))).reverse)
          ((marshalInputs info.input_defs 0 ctx).2.2).outputs
          (bridgeResult info ctx).1 (bridgeResult info ctx).2).1 } := by
    rw [RunKernelFunc, if_pos h1, if_pos h2, if_pos h3]
    dsimp only
    rw [hAttrs2, hback]
    rfl
  rw [hOR, hOuts] at hRun
  rw [show info.output_defs.zip (outputRanges info ctx) = outItems info ctx from rfl]
    at hRun
  have hsl : (bridgeResult info ctx).1.length = countScalarZ (outItems info ctx) := by
    rw [hslen, countScalarZ_outItems]
  have hvl : (bridgeResult info ctx).2.length = countVecZ (outItems info ctx) :=
    vecShapesOk_length _ _ hvsh
  have hW : (writeBackAux ((outItems info ctx).reverse) ctx.outputs
      (bridgeResult info ctx).1 (bridgeResult info ctx).2).1 =
      writeBackRevSpec (outItems info ctx) ctx.outputs
        (bridgeResult info ctx).1 (bridgeResult info ctx).2 :=
    writeBackAux_rev_eq _ _ _ _ hsl hvl
  refine ⟨_, hRun, ?_, ?_⟩
  · intro i hi
    have hfid := revSpec_fidelity (outItems info ctx) ctx.outputs
      (bridgeResult info ctx).1 (bridgeResult info ctx).2 hdis hvsh hbound i
      (by rw [outItems_length]; exact hi)
    rw [outItems_getElem info ctx i (by rw [outItems_length]; exact hi) hi] at hfid
    rw [countScalarZ_outItems_take, countVecZ_outItems_take] at hfid
    dsimp only at hfid ⊢
    rw [hW]
    exact hfid
  · dsimp only
    rw [hW]
    exact revSpec_eq_fwdSpec _ _ _ _ hdis hvsh

/-- Witness for C1: on the concrete CPU call (one scalar output seeded 10, one
two-slot list output seeded [20, 30]; plugin adds 100 resp. 200), all
hypotheses hold and the slots after the call hold exactly the plugin's
storage values. -/
theorem runKernelFunc_output_roundtrip_witness :
    (wInfo.backend = Backend.cpu ∧
      rangesInBounds (outItems wInfo wCtx) wCtx.outputs.length = true ∧
      disjointAll (outItems wInfo wCtx) = true ∧
      (bridgeResult wInfo wCtx).1.length = countScalar wInfo.output_defs ∧
      vecShapesOk (outItems wInfo wCtx) (bridgeResult wInfo wCtx).2 = true) ∧
    (∃ ctx', RunKernelFunc wEnv wInfo wCtx = .ok ctx' ∧
      (∀ i, (hi : i < wInfo.output_defs.length) →
        if (wInfo.output_defs[i]).is_vector then
          ∀ k, k < (wCtx.output_range.getD i (0, 0)).2 -
              (wCtx.output_range.getD i (0, 0)).1 →
            ctx'.outputs.getD ((wCtx.output_range.getD i (0, 0)).1 + k) 0 =
              ((bridgeResult wInfo wCtx).2.getD
                (countVec (wInfo.output_defs.take i)) []).getD k 0
        else
          ctx'.outputs.getD (wCtx.output_range.getD i (0, 0)).1 0 =
            (bridgeResult wInfo wCtx).1.getD
              (countScalar (wInfo.output_defs.take i)) 0) ∧
      ctx'.outputs = writeBackFwdSpec (outItems wInfo wCtx) wCtx.outputs
        (bridgeResult wInfo wCtx).1 (bridgeResult wInfo wCtx).2) :=
  ⟨⟨by decide, by decide, by decide, by decide, by decide⟩,
    runKernelFunc_output_roundtrip wEnv wInfo wCtx (by decide) (by decide)
      (by decide) (by decide) (by decide) (by decide) (by decide) (by decide)
      (by decide)⟩

end CustomKernel
